import Mathlib

set_option maxRecDepth 8000

/-!
Verification of `get_from.py`: a command-line utility that downloads JSON
resources from a regulations-publishing HTTP API and mirrors them to a local
directory tree.  Python strings are modelled as `List Char`; the filesystem is
an explicit state (a map from paths to file contents plus a set of
directories); the HTTP client is an oracle function from request URLs to
responses; uncaught Python exceptions are modelled with `Option`.
-/

/-- Python strings are modelled as lists of characters. -/
abbrev PyStr := List Char

/-- The character list of a Lean string literal. -/
def lit (s : String) : PyStr := s.toList

/-- Python `str.startswith(c)` for a one-character argument. -/
def startswith (c : Char) : PyStr → Bool
  | [] => false
  | x :: _ => decide (x = c)

/-- Python `str.endswith(c)` for a one-character argument. -/
def endswith (c : Char) : PyStr → Bool
  | [] => false
  | [x] => decide (x = c)
  | _ :: x :: xs => endswith c (x :: xs)

/-- Python 2 `posixpath.join` for two components, as used by
`os.path.join` in the script: an absolute second component resets the path,
a first component that is empty or slash-terminated is extended in place,
otherwise a separator is inserted. -/
def pjoin (a b : PyStr) : PyStr :=
  if startswith '/' b = true then b
  else if a = [] ∨ endswith '/' a = true then a ++ b
  else a ++ '/' :: b

/-- Python `str.split(c)` for a one-character separator. -/
def splitChar (c : Char) : List Char → List PyStr
  | [] => [[]]
  | x :: xs =>
    match splitChar c xs with
    | [] => [[]]
    | s :: rest => if x = c then [] :: s :: rest else (x :: s) :: rest

/-- Python `'/'.join(segs)`. -/
def joinSegs : List PyStr → PyStr
  | [] => []
  | [s] => s
  | s :: t :: rest => s ++ '/' :: joinSegs (t :: rest)

/-- Index one past the last `'/'` of the string, `0` when there is none
(Python `p.rfind('/') + 1`). -/
def rfindSlashSucc : PyStr → Nat
  | [] => 0
  | c :: cs =>
    let r := rfindSlashSucc cs
    if r > 0 then r + 1 else if c = '/' then 1 else 0

/-- Whether the string consists only of `'/'` characters
(Python `head == '/' * len(head)` for nonempty `head`). -/
def all_slashes (s : PyStr) : Bool := s.all (fun c => decide (c = '/'))

/-- Python `str.rstrip('/')`. -/
def rstrip_slashes (s : PyStr) : PyStr :=
  (s.reverse.dropWhile (fun c => decide (c = '/'))).reverse

/-- Python 2 `posixpath.split`: split off the final component; the head keeps
its trailing slashes only when it consists of nothing but slashes. -/
def psplit (p : PyStr) : PyStr × PyStr :=
  let i := rfindSlashSucc p
  let head := p.take i
  let tail := p.drop i
  if head = [] ∨ all_slashes head = true then (head, tail)
  else (rstrip_slashes head, tail)

/-- Python 2 `posixpath.dirname`. -/
def dirname (p : PyStr) : PyStr := (psplit p).1

/-- The head/tail pair `os.makedirs` works on: `posixpath.split`, re-split
once when the tail is empty (trailing-slash argument). -/
def msplit (name : PyStr) : PyStr × PyStr :=
  let ht := psplit name
  if ht.2 = [] then psplit ht.1 else ht

/- ------------------------------------------------------------------ -/
/- URLs: model of Python 2 `urlparse.urljoin` for an absolute
   hierarchical base URL and a relative reference that carries no scheme,
   authority, query or fragment of its own (the only shapes the script
   produces).                                                           -/
/- ------------------------------------------------------------------ -/

/-- A parsed absolute hierarchical URL `scheme://netloc path`. -/
structure Url where
  scheme : PyStr
  netloc : PyStr
  path : PyStr
  deriving DecidableEq

/-- First step of `urljoin`'s dot-segment resolution: a trailing `'.'`
segment becomes an empty segment. -/
def dotLast (segs : List PyStr) : List PyStr :=
  if segs.getLast? = some (lit ".") then segs.dropLast ++ [[]] else segs

/-- Second step: every remaining `'.'` segment is removed
(Python `while '.' in segments: segments.remove('.')`). -/
def dotFilter (segs : List PyStr) : List PyStr :=
  segs.filter (fun s => decide (s ≠ lit "."))

/-- One pass of `urljoin`'s `'..'` elimination: delete the first interior
`'..'` together with its (non-empty, non-`'..'`) predecessor.  The final
segment is never the deleted `'..'` (Python iterates `i < len - 1`). -/
def dotdot_once : List PyStr → Option (List PyStr)
  | a :: b :: c :: rest =>
    if b = lit ".." ∧ ¬ (a = [] ∨ a = lit "..") then some (c :: rest)
    else (dotdot_once (b :: c :: rest)).map (fun l => a :: l)
  | _ => none

/-- Iterate `dotdot_once` to a fixed point (fuelled; each step shortens the
list by two, so `length` fuel always suffices). -/
def dotdot_loop : Nat → List PyStr → List PyStr
  | 0, segs => segs
  | fuel + 1, segs =>
    match dotdot_once segs with
    | none => segs
    | some segs' => dotdot_loop fuel segs'

/-- Final fix-ups of `urljoin`'s segment resolution. -/
def finalFix (segs : List PyStr) : List PyStr :=
  if segs = [[], lit ".."] then [[], []]
  else if 2 ≤ segs.length ∧ segs.getLast? = some (lit "..") then
    segs.dropLast.dropLast ++ [[]]
  else segs

/-- `urljoin`'s `'.'`/`'..'` resolution over a segment list. -/
def resolveDots (segs : List PyStr) : List PyStr :=
  let s := dotFilter (dotLast segs)
  finalFix (dotdot_loop s.length s)

/-- The merged path of `urljoin`: all base segments but the last, followed by
the segments of the relative reference, with dot segments resolved. -/
def merge_path (bpath rel : PyStr) : PyStr :=
  joinSegs (resolveDots ((splitChar '/' bpath).dropLast ++ splitChar '/' rel))

/-- Python 2 `urlparse.urljoin(base, rel)` for a relative path reference:
an empty reference yields the base back, an absolute reference replaces the
base path, otherwise the paths are merged. -/
def urljoin (base : Url) (rel : PyStr) : Url :=
  if rel = [] then base
  else if startswith '/' rel = true then { base with path := rel }
  else { base with path := merge_path base.path rel }

/-- The URL string, as `urlunparse` would print it: a nonempty relative path
gets a separating slash after the authority. -/
def render (u : Url) : PyStr :=
  u.scheme ++ lit "://" ++ u.netloc ++
    (if u.path = [] ∨ startswith '/' u.path = true then u.path else '/' :: u.path)

/-- The request URL of `get_from_server`:
`urlparse.urljoin(api_base, path)` (source line 120). -/
def get_url (api_base : Url) (path : PyStr) : Url := urljoin api_base path

/-- The request URL of `determine_regulation_paths`:
`urlparse.urljoin(api_base, 'regulation/' + regulation)` (source line 48). -/
def reg_request_url (api_base : Url) (regulation : PyStr) : Url :=
  urljoin api_base (lit "regulation/" ++ regulation)

/- ------------------------------------------------------------------ -/
/- JSON values and Python 2 `json.dump` with its default separators.   -/
/- ------------------------------------------------------------------ -/

/-- JSON documents (numbers restricted to integers; the script treats the
body as opaque data, re-serializing whatever `r.json()` returned). -/
inductive Json where
  | null : Json
  | bool : Bool → Json
  | num : Int → Json
  | str : PyStr → Json
  | arr : List Json → Json
  | obj : List (PyStr × Json) → Json

/-- Decimal representation of a natural number. -/
def natRepr (n : Nat) : PyStr := (Nat.repr n).toList

/-- Decimal representation of an integer. -/
def intRepr (i : Int) : PyStr := (Int.repr i).toList

/-- The escaping `json.dump` applies inside string literals (quotes and
backslashes; the script's data contains no control characters). -/
def json_escape : PyStr → PyStr
  | [] => []
  | c :: cs =>
    (if c = '"' then ['\\', '"']
     else if c = '\\' then ['\\', '\\']
     else [c]) ++ json_escape cs

mutual

/-- Python 2 `json.dump` with the default separators `', '` and `': '`. -/
def json_dump : Json → PyStr
  | Json.null => lit "null"
  | Json.bool true => lit "true"
  | Json.bool false => lit "false"
  | Json.num n => intRepr n
  | Json.str s => '"' :: (json_escape s ++ ['"'])
  | Json.arr xs => '[' :: (json_dump_items xs ++ [']'])
  | Json.obj ms => '\x7b' :: (json_dump_members ms ++ ['\x7d'])

/-- Comma-separated dump of array elements. -/
def json_dump_items : List Json → PyStr
  | [] => []
  | [x] => json_dump x
  | x :: y :: rest => json_dump x ++ lit ", " ++ json_dump_items (y :: rest)

/-- Comma-separated dump of object members. -/
def json_dump_members : List (PyStr × Json) → PyStr
  | [] => []
  | [(k, v)] => '"' :: (json_escape k ++ ['"']) ++ lit ": " ++ json_dump v
  | (k, v) :: m :: rest =>
    '"' :: (json_escape k ++ ['"']) ++ lit ": " ++ json_dump v ++ lit ", " ++
      json_dump_members (m :: rest)

end

/- ------------------------------------------------------------------ -/
/- The filesystem state.                                               -/
/- ------------------------------------------------------------------ -/

/-- Filesystem state: written files (later writes shadow earlier ones) and
created directories. -/
structure FS where
  files : List (PyStr × PyStr)
  dirs : List PyStr

/-- The content of the file at `p`, when one exists. -/
def lookupFile (fs : FS) (p : PyStr) : Option PyStr :=
  (fs.files.find? (fun e => decide (e.1 = p))).map (fun e => e.2)

/-- Python `open(p, 'w')` followed by a full write: create or overwrite. -/
def writeFile (fs : FS) (p v : PyStr) : FS :=
  ⟨(p, v) :: fs.files, fs.dirs⟩

/-- Python `os.path.exists`: true for files as well as directories. -/
def pexists (fs : FS) (p : PyStr) : Bool :=
  fs.dirs.any (fun d => decide (d = p)) || fs.files.any (fun e => decide (e.1 = p))

/-- Python `os.mkdir`. -/
def mkdirFS (fs : FS) (d : PyStr) : FS := ⟨fs.files, d :: fs.dirs⟩

/-- Python 2 `os.makedirs` (fuelled recursion on the shrinking head): create
the missing ancestors, then the directory itself — except that a `'.'` tail
is not re-created after the recursive call. -/
def makedirs : Nat → FS → PyStr → FS
  | 0, fs, _ => fs
  | fuel + 1, fs, name =>
    let ht := msplit name
    if ht.1 ≠ [] ∧ ht.2 ≠ [] ∧ pexists fs ht.1 = false then
      let fs2 := makedirs fuel fs ht.1
      if ht.2 = lit "." then fs2 else mkdirFS fs2 name
    else mkdirFS fs name

/-- Source lines 130-132: create the directory (with ancestors) unless it
already exists. -/
def ensure_dir (fs : FS) (directory : PyStr) : FS :=
  if pexists fs directory = true then fs
  else makedirs (directory.length + 1) fs directory

/- ------------------------------------------------------------------ -/
/- HTTP responses and the three functions of the script.               -/
/- ------------------------------------------------------------------ -/

/-- An HTTP response as the script observes it.  `body` is the result of
`r.json()` (`none` when the body is not JSON, in which case `r.json()`
raises).  `errInfo` is the result of the BeautifulSoup extraction in
`handle_error` — the texts of `#summary h1` and `#summary .exception_value`
of an HTML error page — with `none` when that extraction raises. -/
structure Response where
  status : Nat
  body : Option Json
  url : PyStr
  reason : PyStr
  errInfo : Option (PyStr × PyStr)

/-- Source lines 22-34: log the scraped exception title and value together
with the status code; when the scrape fails, log the request URL, status
code and reason instead.  The produced log line is returned. -/
def handle_error (r : Response) : PyStr :=
  match r.errInfo with
  | some ev =>
    lit "error sending " ++ natRepr r.status ++ lit ": " ++ ev.1 ++ lit ", " ++ ev.2
  | none =>
    lit "error getting " ++ r.url ++ lit ": " ++ natRepr r.status ++ ' ' :: r.reason

/-- Lookup of a key in a JSON object (Python `d[key]`). -/
def jlookup (key : PyStr) : List (PyStr × Json) → Option Json
  | [] => none
  | (k, v) :: rest => if k = key then some v else jlookup key rest

/-- Python `d['version']` for one element of the `versions` array, required
to be a string for the later `os.path.join` calls to succeed. -/
def version_of (d : Json) : Option PyStr :=
  match d with
  | Json.obj members =>
    match jlookup (lit "version") members with
    | some (Json.str s) => some s
    | _ => none
  | _ => none

/-- Source line 54, `[d['version'] for d in r.json()['versions']]`: `none`
models the uncaught exception raised when the body is not JSON, not an
object with a `versions` array, or an element has no string `version`. -/
def parse_versions (body : Option Json) : Option (List PyStr) :=
  match body with
  | some (Json.obj members) =>
    match jlookup (lit "versions") members with
    | some (Json.arr ds) => ds.mapM version_of
    | _ => none
  | _ => none

/-- The eleven layer names of source lines 89-100, in source order. -/
def layers : List PyStr :=
  [lit "analyses", lit "external-citations", lit "formatting", lit "graphics",
   lit "internal-citations", lit "interpretations", lit "keyterms", lit "meta",
   lit "paragraph-markers", lit "terms", lit "toc"]

/-- Source lines 75-110: the path-assembly portion of
`determine_regulation_paths`, as a function of the notices list obtained
from the regulation endpoint.  The four `extend` groups appear in source
order: regulation documents (relative to `regulation_base =
os.path.join('regulation', regulation)`), notices, the eleven layers, and
the diff for every ordered pair of notices. -/
def assemble_regulation_paths (regulation : PyStr) (notices : List PyStr) : List PyStr :=
  notices.map (fun n => pjoin (pjoin (lit "regulation") regulation) n) ++
  notices.map (fun n => pjoin (lit "notice") n) ++
  layers.flatMap
    (fun layer => notices.map (fun n => pjoin (pjoin (pjoin (lit "layer") layer) regulation) n)) ++
  notices.flatMap
    (fun notice => notices.map (fun n => pjoin (pjoin (pjoin (lit "diff") regulation) notice) n))

/-- Source lines 38-110, `determine_regulation_paths`: GET
`urljoin(api_base, 'regulation/' + regulation)`, log a non-200 response
(without returning), then read the versions from the body and assemble all
paths.  Returns the produced log lines and `none` for the uncaught
exception raised when the body cannot be read. -/
def determine_regulation_paths (http : Url → Response) (api_base : Url)
    (regulation : PyStr) : List PyStr × Option (List PyStr) :=
  let r := http (reg_request_url api_base regulation)
  let errlog := if r.status = 200 then [] else [handle_error r]
  match parse_versions r.body with
  | none => (errlog, none)
  | some notices => (errlog, some (assemble_regulation_paths regulation notices))

/-- Source lines 113-136, `get_from_server`: GET `urljoin(api_base, path)`;
on a non-200 status log the error and return with the filesystem untouched;
otherwise create the missing directories and write the re-serialized JSON
body to `os.path.join(stub_base, path)`.  `none` models the uncaught
exception of `r.json()` on a 200 response without a JSON body. -/
def get_from_server (http : Url → Response) (api_base : Url)
    (stub_base path : PyStr) (fs : FS) : Option (FS × List PyStr) :=
  let r := http (get_url api_base path)
  if r.status = 200 then
    match r.body with
    | some j =>
      let file_path := pjoin stub_base path
      some (writeFile (ensure_dir fs (dirname file_path)) file_path (json_dump j),
        [lit "getting " ++ file_path])
    | none => none
  else some (fs, [handle_error r])

/- ------------------------------------------------------------------ -/
/- The CLI entry point.                                                -/
/- ------------------------------------------------------------------ -/

/-- Parsed command-line arguments.  `api_base` is modelled as a parsed URL;
`paths` is the value of `-p` (default `[]`). -/
structure Args where
  api_base : Option Url
  stub_base : PyStr
  regulation : Option PyStr
  paths : List PyStr

/-- Process termination: a `sys.exit` code or an uncaught exception. -/
inductive Outcome where
  | exit : Nat → Outcome
  | exception : Outcome
  deriving DecidableEq

/-- Result of a whole run: outcome, final filesystem, the paths for which a
fetch request was issued (in order, with multiplicity), and the error/info
log lines. -/
structure RunResult where
  outcome : Outcome
  fs : FS
  fetched : List PyStr
  log : List PyStr

/-- Result of the fetch loop over the discovered paths. -/
structure LoopOut where
  fs : FS
  log : List PyStr
  fetched : List PyStr
  ok : Bool

/-- Source line 177: the fetch loop.  A raised exception (`ok = false`)
abandons the remaining paths. -/
def fetch_all (http : Url → Response) (api_base : Url) (stub_base : PyStr) :
    List PyStr → FS → LoopOut
  | [], fs => ⟨fs, [], [], true⟩
  | p :: ps, fs =>
    match get_from_server http api_base stub_base p fs with
    | none => ⟨fs, [], [p], false⟩
    | some (fs', lg) =>
      let rest := fetch_all http api_base stub_base ps fs'
      ⟨rest.fs, lg ++ rest.log, p :: rest.fetched, rest.ok⟩

/-- Source lines 139-177, the `__main__` block: exit 1 when `-a` is absent;
when `-r` is given, discover the regulation's paths and fetch them all;
otherwise — even when `-p` supplied paths — log, print usage and exit 1.
Falling off the end of the script exits 0. -/
def runMain (http : Url → Response) (args : Args) (fs : FS) : RunResult :=
  match args.api_base with
  | none => ⟨Outcome.exit 1, fs, [], [lit "ERROR: -a api_base is required."]⟩
  | some api_base =>
    match args.regulation with
    | some reg =>
      let d := determine_regulation_paths http api_base reg
      match d.2 with
      | none => ⟨Outcome.exception, fs, [], d.1⟩
      | some paths =>
        let out := fetch_all http api_base args.stub_base paths fs
        ⟨if out.ok = true then Outcome.exit 0 else Outcome.exception,
          out.fs, out.fetched, d.1 ++ out.log⟩
    | none =>
      ⟨Outcome.exit 1, fs, [],
        [lit "no paths or regulation to get. Use -r or -p to specify."]⟩

/- ------------------------------------------------------------------ -/
/- Specification-side vocabulary.                                      -/
/- ------------------------------------------------------------------ -/

/-- A well-formed path token: nonempty, not beginning and not ending with a
slash (so that `os.path.join` concatenates with single separators). -/
def goodTok (t : PyStr) : Prop :=
  t ≠ [] ∧ startswith '/' t = false ∧ endswith '/' t = false

instance goodTok_decidable (t : PyStr) : Decidable (goodTok t) := by
  unfold goodTok
  infer_instance

/-- A relative reference without `'.'` or `'..'` segments. -/
def noDots (p : PyStr) : Prop :=
  lit "." ∉ splitChar '/' p ∧ lit ".." ∉ splitChar '/' p

instance noDots_decidable (p : PyStr) : Decidable (noDots p) := by
  unfold noDots
  infer_instance

/-- The path set claimed by the specification for a regulation with the
given notices: regulation, notice and layer documents per notice, and a
diff document for every ordered pair of notices. -/
def claimed_path (regulation : PyStr) (notices : List PyStr) (p : PyStr) : Prop :=
  (∃ n ∈ notices, p = lit "regulation/" ++ regulation ++ '/' :: n) ∨
  (∃ n ∈ notices, p = lit "notice/" ++ n) ∨
  (∃ l ∈ layers, ∃ n ∈ notices, p = lit "layer/" ++ l ++ '/' :: regulation ++ '/' :: n) ∨
  (∃ n1 ∈ notices, ∃ n2 ∈ notices, p = lit "diff/" ++ regulation ++ '/' :: n1 ++ '/' :: n2)

instance claimed_path_decidable (regulation : PyStr) (notices : List PyStr) (p : PyStr) :
    Decidable (claimed_path regulation notices p) := by
  unfold claimed_path
  infer_instance

/-- Abstract keys of the assembled paths, used to prove uniqueness. -/
inductive PathKey where
  | reg : PyStr → PathKey
  | ntc : PyStr → PathKey
  | lay : PyStr → PyStr → PathKey
  | dif : PyStr → PyStr → PathKey

/-- The path string denoted by a key. -/
def keyPath (regulation : PyStr) : PathKey → PyStr
  | PathKey.reg n => lit "regulation/" ++ regulation ++ '/' :: n
  | PathKey.ntc n => lit "notice/" ++ n
  | PathKey.lay l n => lit "layer/" ++ l ++ '/' :: regulation ++ '/' :: n
  | PathKey.dif n1 n2 => lit "diff/" ++ regulation ++ '/' :: n1 ++ '/' :: n2

/-- The keys of all assembled paths, in assembly order. -/
def pathKeys (notices : List PyStr) : List PathKey :=
  notices.map PathKey.reg ++ notices.map PathKey.ntc ++
    layers.flatMap (fun l => notices.map (PathKey.lay l)) ++
    notices.flatMap (fun n1 => notices.map (PathKey.dif n1))

/-- The slash-freedom a key needs for its rendered path to determine it:
only the components that a later component is appended to after a
separator matter. -/
def keyComponentsFree : PathKey → Prop
  | PathKey.reg _ => True
  | PathKey.ntc _ => True
  | PathKey.lay l _ => '/' ∉ l
  | PathKey.dif n1 _ => '/' ∉ n1

/- ------------------------------------------------------------------ -/
/- Concrete fixtures used by witnesses and counterexamples.            -/
/- ------------------------------------------------------------------ -/

/-- The empty filesystem. -/
def fs0 : FS := ⟨[], []⟩

/-- A base URL whose path ends in a slash. -/
def u0 : Url := ⟨lit "http", lit "h", lit "/api/"⟩

/-- A server that always answers 404 with a non-JSON body and an error page
the scraper cannot parse. -/
def http404 : Url → Response :=
  fun u => ⟨404, none, render u, lit "NOT FOUND", none⟩

/-- The regulation document listing the given version tokens. -/
def versionsJson (vs : List PyStr) : Json :=
  Json.obj [(lit "versions", Json.arr (vs.map (fun v => Json.obj [(lit "version", Json.str v)])))]

/-- A server that always answers 200 with a regulation document listing the
given versions. -/
def httpWith (vs : List PyStr) : Url → Response :=
  fun u => ⟨200, some (versionsJson vs), render u, [], none⟩

/-- A server that answers the discovery request for regulation `7` with one
version and every other request with 404. -/
def httpMix : Url → Response :=
  fun u =>
    if u = reg_request_url u0 (lit "7") then
      ⟨200, some (versionsJson [lit "v1"]), render u, [], none⟩
    else ⟨404, none, render u, lit "NOT FOUND", none⟩

/-- A server that always answers 200 with the body `7`. -/
def http7 : Url → Response :=
  fun u => ⟨200, some (Json.num 7), render u, [], none⟩

/-- A server that always answers 200 with the body `8`. -/
def http8 : Url → Response :=
  fun u => ⟨200, some (Json.num 8), render u, [], none⟩

/- ================================================================== -/
/- Theorems.                                                           -/
/- ================================================================== -/

/-- `os.path.join` concatenates with a single separator whenever the left
component is nonempty without a trailing slash and the right component has
no leading slash. -/
theorem pjoin_append (a b : PyStr) (ha : a ≠ []) (ha2 : endswith '/' a = false)
    (hb : startswith '/' b = false) : pjoin a b = a ++ '/' :: b := by
  simp [pjoin, hb, ha, ha2]

/-- A fresh write is immediately readable. -/
theorem lookupFile_writeFile (fs : FS) (p v : PyStr) :
    lookupFile (writeFile fs p v) p = some v := by
  simp [lookupFile, writeFile, List.find?]

/-- Writing a file preserves existence of any path. -/
theorem pexists_writeFile (fs : FS) (x p v : PyStr) (h : pexists fs x = true) :
    pexists (writeFile fs p v) x = true := by
  simp [pexists, writeFile, List.any_cons] at h ⊢
  tauto

/-- `mkdir` makes its argument exist. -/
theorem pexists_mkdirFS (fs : FS) (d : PyStr) : pexists (mkdirFS fs d) d = true := by
  simp [pexists, mkdirFS]

/-- `makedirs` creates its argument, whenever its final component is not the
current-directory marker. -/
theorem makedirs_creates (fuel : Nat) (fs : FS) (name : PyStr)
    (hd : (msplit name).2 ≠ lit ".") :
    pexists (makedirs (fuel + 1) fs name) name = true := by
  by_cases hc : (msplit name).1 ≠ [] ∧ (msplit name).2 ≠ [] ∧
      pexists fs (msplit name).1 = false
  · simp [makedirs, hc, hd, pexists_mkdirFS]
  · simp [makedirs, hc, pexists_mkdirFS]

/-- After `ensure_dir`, the directory exists (final component not `.`). -/
theorem pexists_ensure_dir (fs : FS) (d : PyStr)
    (hd : (msplit d).2 ≠ lit ".") : pexists (ensure_dir fs d) d = true := by
  unfold ensure_dir
  by_cases h : pexists fs d = true
  · simp [h]
  · simp [h]
    exact makedirs_creates d.length fs d hd

/-- Claim C8: on a non-200 response `handle_error` logs the scraped error
title and exception value together with the status code when the HTML
extraction succeeds, and exactly when it fails logs the request URL, the
raw status code and the reason instead. -/
theorem handle_error_format (r : Response) :
    (∀ e v, r.errInfo = some (e, v) →
      handle_error r =
        lit "error sending " ++ natRepr r.status ++ lit ": " ++ e ++ lit ", " ++ v) ∧
    (r.errInfo = none →
      handle_error r =
        lit "error getting " ++ r.url ++ lit ": " ++ natRepr r.status ++ ' ' :: r.reason) := by
  constructor
  · intro e v h
    simp [handle_error, h]
  · intro h
    simp [handle_error, h]

/-- Witness for C8: a 404 response with a parseable error page is logged
with title and value. -/
theorem handle_error_format_witness :
    handle_error ⟨404, none, lit "http://h/x", lit "NOT FOUND", some (lit "E", lit "V")⟩ =
      lit "error sending 404: E, V" :=
  (handle_error_format ⟨404, none, lit "http://h/x", lit "NOT FOUND", some (lit "E", lit "V")⟩).1
    (lit "E") (lit "V") rfl

/-- Claim C2 (code bug): with `-a` present and paths supplied through `-p`
but no `-r`, the script takes the `else` branch of line 172, logs, prints
usage and exits 1 without fetching anything — although its own help text
says `-p` names specific JSON paths to get. -/
theorem main_paths_only_exits_one (http : Url → Response) (u : Url) (stub : PyStr)
    (ps : List PyStr) (fs : FS) :
    runMain http ⟨some u, stub, none, ps⟩ fs =
      ⟨Outcome.exit 1, fs, [],
        [lit "no paths or regulation to get. Use -r or -p to specify."]⟩ := rfl

/-- Claim C5: a non-200 fetch logs an error and returns with the filesystem
state completely unchanged. -/
theorem get_from_server_error_no_write (http : Url → Response) (u : Url)
    (stub path : PyStr) (fs : FS)
    (hs : (http (get_url u path)).status ≠ 200) :
    get_from_server http u stub path fs =
      some (fs, [handle_error (http (get_url u path))]) := by
  simp [get_from_server, hs]

/-- Witness for C5: fetching `notice/x` from an all-404 server leaves the
empty filesystem empty and logs one error line. -/
theorem get_from_server_error_no_write_witness :
    get_from_server http404 u0 (lit "/stub") (lit "notice/x") fs0 =
      some (fs0, [handle_error (http404 (get_url u0 (lit "notice/x")))]) :=
  get_from_server_error_no_write http404 u0 (lit "/stub") (lit "notice/x") fs0 (by decide)

/-- Claim C10: when the regulation request returns a non-200 status,
`determine_regulation_paths` logs the error but continues; if the failed
response's body is not the expected JSON, the version lookup raises an
uncaught exception and the whole run aborts before any path is fetched. -/
theorem discovery_error_aborts (http : Url → Response) (u : Url) (stub reg : PyStr)
    (ps : List PyStr) (fs : FS)
    (hs : (http (reg_request_url u reg)).status ≠ 200)
    (hp : parse_versions (http (reg_request_url u reg)).body = none) :
    determine_regulation_paths http u reg =
        ([handle_error (http (reg_request_url u reg))], none) ∧
    runMain http ⟨some u, stub, some reg, ps⟩ fs =
      ⟨Outcome.exception, fs, [], [handle_error (http (reg_request_url u reg))]⟩ := by
  have hd : determine_regulation_paths http u reg =
      ([handle_error (http (reg_request_url u reg))], none) := by
    simp [determine_regulation_paths, hp, hs]
  refine ⟨hd, ?_⟩
  simp [runMain, hd]

/-- Witness for C10: against an all-404 server with non-JSON bodies, the run
with `-r 1026` aborts by exception, fetching nothing. -/
theorem discovery_error_aborts_witness :
    runMain http404 ⟨some u0, lit "/stub", some (lit "1026"), []⟩ fs0 =
      ⟨Outcome.exception, fs0, [],
        [handle_error (http404 (reg_request_url u0 (lit "1026")))]⟩ :=
  (discovery_error_aborts http404 u0 (lit "/stub") (lit "1026") [] fs0
    (by decide) (by decide)).2

/-- Claim C4 (amended): a 200 fetch with JSON body `j` writes the
re-serialized body to `os.path.join(stub_base, path)` after creating the
missing directories; when `stub_base` is nonempty without a trailing slash
and `path` has no leading slash, that location is `stub_base ++ "/" ++
path`.  (The final hypothesis rules out a `.` basename of the target
directory, an artifact of the string-level directory model.) -/
theorem get_from_server_writes (http : Url → Response) (u : Url)
    (stub path : PyStr) (fs : FS) (j : Json)
    (hs : (http (get_url u path)).status = 200)
    (hb : (http (get_url u path)).body = some j)
    (hstub : stub ≠ []) (hstub2 : endswith '/' stub = false)
    (hpath : startswith '/' path = false)
    (hd : (msplit (dirname (stub ++ '/' :: path))).2 ≠ lit ".") :
    ∃ fs', get_from_server http u stub path fs =
        some (fs', [lit "getting " ++ stub ++ '/' :: path]) ∧
      lookupFile fs' (stub ++ '/' :: path) = some (json_dump j) ∧
      pexists fs' (dirname (stub ++ '/' :: path)) = true := by
  have hpj : pjoin stub path = stub ++ '/' :: path :=
    pjoin_append stub path hstub hstub2 hpath
  refine ⟨writeFile (ensure_dir fs (dirname (stub ++ '/' :: path)))
      (stub ++ '/' :: path) (json_dump j), ?_, ?_, ?_⟩
  · simp [get_from_server, hs, hb, hpj]
  · exact lookupFile_writeFile _ _ _
  · exact pexists_writeFile _ _ _ _ (pexists_ensure_dir _ _ hd)

/-- Witness for C4: fetching `notice/x` (body `7`) into `/stub` writes the
file `/stub/notice/x` with the directory present. -/
theorem get_from_server_writes_witness :
    ∃ fs', get_from_server http7 u0 (lit "/stub") (lit "notice/x") fs0 =
        some (fs', [lit "getting " ++ lit "/stub" ++ '/' :: lit "notice/x"]) ∧
      lookupFile fs' (lit "/stub" ++ '/' :: lit "notice/x") = some (json_dump (Json.num 7)) ∧
      pexists fs' (dirname (lit "/stub" ++ '/' :: lit "notice/x")) = true :=
  get_from_server_writes http7 u0 (lit "/stub") (lit "notice/x") fs0 (Json.num 7)
    rfl rfl (by decide) (by decide) (by decide) (by decide)

/-- Counterexample for C4 as stated: for the path `/x` (a path with a
leading slash) the 200 fetch writes the file at `/x` — `os.path.join`
discards `stub_base` — and no file appears at `{stub_base}/{path}`,
i.e. `/stub//x`. -/
theorem get_from_server_writes_cex :
    (get_from_server http7 u0 (lit "/stub") (lit "/x") fs0).map
        (fun r => (lookupFile r.1 (lit "/stub//x"), lookupFile r.1 (lit "/x"))) =
      some (none, some (json_dump (Json.num 7))) := by decide

/-- Claim C7 (amended): re-running a successful fetch for the same path
overwrites the file at `os.path.join(stub_base, path)` without error,
leaving the re-serialized body of the second response; the location equals
`stub_base ++ "/" ++ path` under the usual well-formedness of the two
components. -/
theorem get_from_server_overwrites (http2 : Url → Response) (u : Url)
    (stub path : PyStr) (fs1 : FS) (j1 j2 : Json)
    (hs : (http2 (get_url u path)).status = 200)
    (hb : (http2 (get_url u path)).body = some j2)
    (hstub : stub ≠ []) (hstub2 : endswith '/' stub = false)
    (hpath : startswith '/' path = false)
    (hprev : lookupFile fs1 (stub ++ '/' :: path) = some (json_dump j1)) :
    ∃ fs2, get_from_server http2 u stub path fs1 =
        some (fs2, [lit "getting " ++ stub ++ '/' :: path]) ∧
      lookupFile fs2 (stub ++ '/' :: path) = some (json_dump j2) := by
  have hpj : pjoin stub path = stub ++ '/' :: path :=
    pjoin_append stub path hstub hstub2 hpath
  refine ⟨writeFile (ensure_dir fs1 (dirname (stub ++ '/' :: path)))
      (stub ++ '/' :: path) (json_dump j2), ?_, ?_⟩
  · simp [get_from_server, hs, hb, hpj]
  · exact lookupFile_writeFile _ _ _

/-- Witness for C7: after a first fetch stored body `7` at
`/stub/notice/x`, a second fetch returning body `8` overwrites it. -/
theorem get_from_server_overwrites_witness :
    ∃ fs2, get_from_server http8 u0 (lit "/stub") (lit "notice/x")
        ⟨[(lit "/stub/notice/x", json_dump (Json.num 7))], [lit "/stub/notice"]⟩ =
        some (fs2, [lit "getting " ++ lit "/stub" ++ '/' :: lit "notice/x"]) ∧
      lookupFile fs2 (lit "/stub" ++ '/' :: lit "notice/x") = some (json_dump (Json.num 8)) :=
  get_from_server_overwrites http8 u0 (lit "/stub") (lit "notice/x")
    ⟨[(lit "/stub/notice/x", json_dump (Json.num 7))], [lit "/stub/notice"]⟩
    (Json.num 7) (Json.num 8) rfl rfl (by decide) (by decide) (by decide) (by decide)

/-- Counterexample for C7 as stated: two successful fetches of the path
`/x` never place the second body at `{stub_base}/{p}` (`/stub//x`); both
writes land at `/x`. -/
theorem get_from_server_overwrites_cex :
    ((get_from_server http7 u0 (lit "/stub") (lit "/x") fs0).bind
      (fun r => (get_from_server http8 u0 (lit "/stub") (lit "/x") r.1).map
        (fun r2 => (lookupFile r2.1 (lit "/stub//x"), lookupFile r2.1 (lit "/x"))))) =
      some (none, some (json_dump (Json.num 8))) := by decide

/-- `endswith` over an append looks only at the nonempty right part. -/
theorem endswith_append (c : Char) (a b : PyStr) (hb : b ≠ []) :
    endswith c (a ++ b) = endswith c b := by
  induction a with
  | nil => rfl
  | cons x xs ih =>
    cases h : xs ++ b with
    | nil => exact absurd (List.append_eq_nil.mp h).2 hb
    | cons y ys =>
      calc endswith c ((x :: xs) ++ b) = endswith c (x :: y :: ys) := by
            rw [List.cons_append, h]
      _ = endswith c (y :: ys) := rfl
      _ = endswith c (xs ++ b) := by rw [h]
      _ = endswith c b := ih

/-- `startswith` over an append looks only at the nonempty left part. -/
theorem startswith_append (c : Char) (a b : PyStr) (ha : a ≠ []) :
    startswith c (a ++ b) = startswith c a := by
  cases a with
  | nil => exact absurd rfl ha
  | cons x xs => rfl

/-- A string starting with `c` contains `c`. -/
theorem startswith_mem (c : Char) (l : PyStr) (h : startswith c l = true) : c ∈ l := by
  cases l with
  | nil => simp [startswith] at h
  | cons x xs =>
    simp [startswith] at h
    simp [h]

/-- A string ending with `c` contains `c`. -/
theorem endswith_mem (c : Char) : ∀ l : PyStr, endswith c l = true → c ∈ l
  | [x], h => by
    simp [endswith] at h
    simp [h]
  | x :: y :: ys, h => List.mem_cons_of_mem x (endswith_mem c (y :: ys) h)

/-- A nonempty slash-free string is a well-formed token. -/
theorem goodTok_of_no_slash (t : PyStr) (h1 : t ≠ []) (h2 : '/' ∉ t) : goodTok t := by
  refine ⟨h1, ?_, ?_⟩
  · cases hs : startswith '/' t with
    | false => rfl
    | true => exact absurd (startswith_mem _ _ hs) h2
  · cases hs : endswith '/' t with
    | false => rfl
    | true => exact absurd (endswith_mem _ _ hs) h2

/-- Joining two well-formed tokens with a slash gives a well-formed token. -/
theorem goodTok_append (a b : PyStr) (ha : goodTok a) (hb : goodTok b) :
    goodTok (a ++ '/' :: b) := by
  obtain ⟨ha1, ha2, _⟩ := ha
  obtain ⟨hb1, _, hb3⟩ := hb
  refine ⟨by simp, ?_, ?_⟩
  · rw [startswith_append _ _ _ ha1]
    exact ha2
  · rw [endswith_append _ _ _ (by simp)]
    cases b with
    | nil => exact absurd rfl hb1
    | cons y ys =>
      calc endswith '/' ('/' :: y :: ys) = endswith '/' (y :: ys) := rfl
      _ = false := hb3

/-- `os.path.join` of well-formed tokens concatenates and stays
well-formed. -/
theorem pjoin_good (a b : PyStr) (ha : goodTok a) (hb : goodTok b) :
    pjoin a b = a ++ '/' :: b ∧ goodTok (pjoin a b) := by
  have h := pjoin_append a b ha.1 ha.2.2 hb.2.1
  exact ⟨h, h ▸ goodTok_append a b ha hb⟩

/-- Two slash-joined pairs with slash-free left parts agree componentwise. -/
theorem slash_split (a : PyStr) : ∀ (c b d : PyStr),
    '/' ∉ a → '/' ∉ c → a ++ '/' :: b = c ++ '/' :: d → a = c ∧ b = d := by
  induction a with
  | nil =>
    intro c b d _ hc h
    cases c with
    | nil => simpa using h
    | cons y c' =>
      rw [List.nil_append, List.cons_append] at h
      injection h with h1 h2
      have : ('/' : Char) ∈ y :: c' := by
        rw [h1]
        exact List.mem_cons_self y c'
      exact absurd this hc
  | cons x a' ih =>
    intro c b d ha hc h
    cases c with
    | nil =>
      rw [List.cons_append, List.nil_append] at h
      injection h with h1 h2
      have : ('/' : Char) ∈ x :: a' := by
        rw [← h1]
        exact List.mem_cons_self x a'
      exact absurd this ha
    | cons y c' =>
      rw [List.cons_append, List.cons_append] at h
      injection h with h1 h2
      have ha' : '/' ∉ a' := fun m => ha (List.mem_cons_of_mem _ m)
      have hc' : '/' ∉ c' := fun m => hc (List.mem_cons_of_mem _ m)
      obtain ⟨e1, e2⟩ := ih c' b d ha' hc' h2
      refine ⟨by rw [h1, e1], e2⟩

/-- Lists with distinct head characters differ. -/
theorem head_ne_append (x y : Char) (a b : PyStr) (hxy : x ≠ y) :
    x :: a ≠ y :: b := by
  intro h
  injection h with h1 _
  exact hxy h1

/-- Map respects pointwise equality on members. -/
theorem map_congr_mem {α β : Type} (l : List α) (f g : α → β)
    (h : ∀ a ∈ l, f a = g a) : l.map f = l.map g := by
  induction l with
  | nil => rfl
  | cons x xs ih =>
    simp only [List.map_cons]
    rw [h x (List.mem_cons_self x xs), ih (fun a ha => h a (List.mem_cons_of_mem x ha))]

/-- flatMap respects pointwise equality on members. -/
theorem flatMap_congr_mem {α β : Type} (l : List α) (f g : α → List β)
    (h : ∀ a ∈ l, f a = g a) : l.flatMap f = l.flatMap g := by
  induction l with
  | nil => rfl
  | cons x xs ih =>
    simp only [List.flatMap_cons]
    rw [h x (List.mem_cons_self x xs), ih (fun a ha => h a (List.mem_cons_of_mem x ha))]

/-- Map distributes into flatMap. -/
theorem map_flatMap_mem {α β γ : Type} (l : List α) (f : α → List β) (g : β → γ) :
    (l.flatMap f).map g = l.flatMap (fun a => (f a).map g) := by
  induction l with
  | nil => rfl
  | cons x xs ih => simp [List.flatMap_cons, ih]

/-- The regulation path template. -/
theorem reg_template (regulation n : PyStr) (hr : goodTok regulation) (hn : goodTok n) :
    pjoin (pjoin (lit "regulation") regulation) n =
      lit "regulation/" ++ regulation ++ '/' :: n := by
  obtain ⟨e1, g1⟩ := pjoin_good _ _ (by decide : goodTok (lit "regulation")) hr
  obtain ⟨e2, _⟩ := pjoin_good _ _ g1 hn
  rw [e2, e1]
  have hlit : lit "regulation/" = lit "regulation" ++ ['/'] := by decide
  simp [hlit, List.append_assoc]

/-- The notice path template. -/
theorem ntc_template (n : PyStr) (hn : goodTok n) :
    pjoin (lit "notice") n = lit "notice/" ++ n := by
  obtain ⟨e1, _⟩ := pjoin_good _ _ (by decide : goodTok (lit "notice")) hn
  rw [e1]
  have hlit : lit "notice/" = lit "notice" ++ ['/'] := by decide
  simp [hlit, List.append_assoc]

/-- The layer path template. -/
theorem lay_template (l regulation n : PyStr) (hl : goodTok l) (hr : goodTok regulation)
    (hn : goodTok n) :
    pjoin (pjoin (pjoin (lit "layer") l) regulation) n =
      lit "layer/" ++ l ++ '/' :: regulation ++ '/' :: n := by
  obtain ⟨e1, g1⟩ := pjoin_good _ _ (by decide : goodTok (lit "layer")) hl
  obtain ⟨e2, g2⟩ := pjoin_good _ _ g1 hr
  obtain ⟨e3, _⟩ := pjoin_good _ _ g2 hn
  rw [e3, e2, e1]
  have hlit : lit "layer/" = lit "layer" ++ ['/'] := by decide
  simp [hlit, List.append_assoc]

/-- The diff path template. -/
theorem dif_template (regulation n1 n2 : PyStr) (hr : goodTok regulation)
    (h1 : goodTok n1) (h2 : goodTok n2) :
    pjoin (pjoin (pjoin (lit "diff") regulation) n1) n2 =
      lit "diff/" ++ regulation ++ '/' :: n1 ++ '/' :: n2 := by
  obtain ⟨e1, g1⟩ := pjoin_good _ _ (by decide : goodTok (lit "diff")) hr
  obtain ⟨e2, g2⟩ := pjoin_good _ _ g1 h1
  obtain ⟨e3, _⟩ := pjoin_good _ _ g2 h2
  rw [e3, e2, e1]
  have hlit : lit "diff/" = lit "diff" ++ ['/'] := by decide
  simp [hlit, List.append_assoc]

/-- Every layer name is a well-formed token. -/
theorem layers_good : ∀ l ∈ layers, goodTok l := by decide

/-- No layer name contains a slash. -/
theorem layers_no_slash : ∀ l ∈ layers, '/' ∉ l := by decide

/-- The layer names are pairwise distinct. -/
theorem layers_nodup : layers.Nodup := by decide

/-- Under well-formed tokens the assembled paths are exactly the rendered
path keys, in order. -/
theorem assemble_eq_map (regulation : PyStr) (notices : List PyStr)
    (hr : goodTok regulation) (hn : ∀ n ∈ notices, goodTok n) :
    assemble_regulation_paths regulation notices =
      (pathKeys notices).map (keyPath regulation) := by
  unfold assemble_regulation_paths pathKeys
  rw [List.map_append, List.map_append, List.map_append, List.map_map, List.map_map,
      map_flatMap_mem, map_flatMap_mem]
  have h1 : notices.map (fun n => pjoin (pjoin (lit "regulation") regulation) n) =
      notices.map (keyPath regulation ∘ PathKey.reg) :=
    map_congr_mem _ _ _ (fun n hm => by
      rw [reg_template regulation n hr (hn n hm)]
      rfl)
  have h2 : notices.map (fun n => pjoin (lit "notice") n) =
      notices.map (keyPath regulation ∘ PathKey.ntc) :=
    map_congr_mem _ _ _ (fun n hm => by
      rw [ntc_template n (hn n hm)]
      rfl)
  have h3 : layers.flatMap
        (fun layer => notices.map (fun n => pjoin (pjoin (pjoin (lit "layer") layer) regulation) n)) =
      layers.flatMap (fun l => (notices.map (PathKey.lay l)).map (keyPath regulation)) :=
    flatMap_congr_mem _ _ _ (fun l hl => by
      rw [List.map_map]
      exact map_congr_mem _ _ _ (fun n hm => by
        rw [lay_template l regulation n (layers_good l hl) hr (hn n hm)]
        rfl))
  have h4 : notices.flatMap
        (fun notice => notices.map (fun n => pjoin (pjoin (pjoin (lit "diff") regulation) notice) n)) =
      notices.flatMap (fun n1 => (notices.map (PathKey.dif n1)).map (keyPath regulation)) :=
    flatMap_congr_mem _ _ _ (fun n1 h1' => by
      rw [List.map_map]
      exact map_congr_mem _ _ _ (fun n hm => by
        rw [dif_template regulation n1 n hr (hn n1 h1') (hn n hm)]
        rfl))
  rw [h1, h2, h3, h4]

/-- Rendered path keys with the needed slash-freedom are determined by
their path strings. -/
theorem keyPath_inj_cases (regulation : PyStr) (k1 k2 : PathKey)
    (hf1 : keyComponentsFree k1) (hf2 : keyComponentsFree k2)
    (h : keyPath regulation k1 = keyPath regulation k2) : k1 = k2 := by
  cases k1 with
  | reg n =>
    cases k2 with
    | reg m =>
      simp only [keyPath, List.append_assoc, List.cons_append] at h
      have h2 := List.append_cancel_left h
      have h3 := List.append_cancel_left h2
      injection h3 with _ h4
      rw [h4]
    | ntc m =>
      simp only [keyPath] at h
      exact absurd h (head_ne_append 'r' 'n'
        (lit "egulation/" ++ regulation ++ '/' :: n) (lit "otice/" ++ m) (by decide))
    | lay l m =>
      simp only [keyPath] at h
      exact absurd h (head_ne_append 'r' 'l'
        (lit "egulation/" ++ regulation ++ '/' :: n)
        (lit "ayer/" ++ l ++ '/' :: regulation ++ '/' :: m) (by decide))
    | dif m1 m2 =>
      simp only [keyPath] at h
      exact absurd h (head_ne_append 'r' 'd'
        (lit "egulation/" ++ regulation ++ '/' :: n)
        (lit "iff/" ++ regulation ++ '/' :: m1 ++ '/' :: m2) (by decide))
  | ntc n =>
    cases k2 with
    | reg m =>
      simp only [keyPath] at h
      exact absurd h (head_ne_append 'n' 'r'
        (lit "otice/" ++ n) (lit "egulation/" ++ regulation ++ '/' :: m) (by decide))
    | ntc m =>
      simp only [keyPath] at h
      have h2 := List.append_cancel_left h
      rw [h2]
    | lay l m =>
      simp only [keyPath] at h
      exact absurd h (head_ne_append 'n' 'l'
        (lit "otice/" ++ n)
        (lit "ayer/" ++ l ++ '/' :: regulation ++ '/' :: m) (by decide))
    | dif m1 m2 =>
      simp only [keyPath] at h
      exact absurd h (head_ne_append 'n' 'd'
        (lit "otice/" ++ n)
        (lit "iff/" ++ regulation ++ '/' :: m1 ++ '/' :: m2) (by decide))
  | lay l n =>
    cases k2 with
    | reg m =>
      simp only [keyPath] at h
      exact absurd h (head_ne_append 'l' 'r'
        (lit "ayer/" ++ l ++ '/' :: regulation ++ '/' :: n)
        (lit "egulation/" ++ regulation ++ '/' :: m) (by decide))
    | ntc m =>
      simp only [keyPath] at h
      exact absurd h (head_ne_append 'l' 'n'
        (lit "ayer/" ++ l ++ '/' :: regulation ++ '/' :: n)
        (lit "otice/" ++ m) (by decide))
    | lay l' m =>
      simp only [keyPath, List.append_assoc, List.cons_append] at h
      have h2 := List.append_cancel_left h
      obtain ⟨e1, e2⟩ := slash_split l l' (regulation ++ '/' :: n) (regulation ++ '/' :: m)
        hf1 hf2 h2
      have e3 := List.append_cancel_left e2
      injection e3 with _ e4
      rw [e1, e4]
    | dif m1 m2 =>
      simp only [keyPath] at h
      exact absurd h (head_ne_append 'l' 'd'
        (lit "ayer/" ++ l ++ '/' :: regulation ++ '/' :: n)
        (lit "iff/" ++ regulation ++ '/' :: m1 ++ '/' :: m2) (by decide))
  | dif n1 n2 =>
    cases k2 with
    | reg m =>
      simp only [keyPath] at h
      exact absurd h (head_ne_append 'd' 'r'
        (lit "iff/" ++ regulation ++ '/' :: n1 ++ '/' :: n2)
        (lit "egulation/" ++ regulation ++ '/' :: m) (by decide))
    | ntc m =>
      simp only [keyPath] at h
      exact absurd h (head_ne_append 'd' 'n'
        (lit "iff/" ++ regulation ++ '/' :: n1 ++ '/' :: n2)
        (lit "otice/" ++ m) (by decide))
    | lay l m =>
      simp only [keyPath] at h
      exact absurd h (head_ne_append 'd' 'l'
        (lit "iff/" ++ regulation ++ '/' :: n1 ++ '/' :: n2)
        (lit "ayer/" ++ l ++ '/' :: regulation ++ '/' :: m) (by decide))
    | dif m1 m2 =>
      simp only [keyPath, List.append_assoc, List.cons_append] at h
      have h2 := List.append_cancel_left h
      have h3 := List.append_cancel_left h2
      injection h3 with _ h4
      obtain ⟨e1, e2⟩ := slash_split n1 m1 n2 m2 hf1 hf2 h4
      rw [e1, e2]

/-- Nodup of a flatMap from a Nodup index list with Nodup, pairwise
disjoint blocks. -/
theorem nodup_flatMap_of {α β : Type} (l : List α) (f : α → List β)
    (hl : l.Nodup) (hf : ∀ a ∈ l, (f a).Nodup)
    (hdisj : ∀ a ∈ l, ∀ b ∈ l, a ≠ b → List.Disjoint (f a) (f b)) :
    (l.flatMap f).Nodup := by
  induction l with
  | nil => simp
  | cons x xs ih =>
    obtain ⟨hx, hxs⟩ := List.nodup_cons.mp hl
    simp only [List.flatMap_cons]
    rw [List.nodup_append]
    refine ⟨hf x (List.mem_cons_self x xs),
      ih hxs (fun a ha => hf a (List.mem_cons_of_mem x ha))
        (fun a ha b hb hab =>
          hdisj a (List.mem_cons_of_mem x ha) b (List.mem_cons_of_mem x hb) hab), ?_⟩
    intro a haf hamem
    rw [List.mem_flatMap] at hamem
    obtain ⟨b, hb, hab⟩ := hamem
    have hxb : x ≠ b := fun e => hx (e ▸ hb)
    exact hdisj x (List.mem_cons_self x xs) b (List.mem_cons_of_mem x hb) hxb haf hab

/-- The members of `pathKeys` draw their slash-sensitive components from
the layer table and the notices. -/
theorem pathKeys_free (notices : List PyStr) (hfree : ∀ n ∈ notices, '/' ∉ n) :
    ∀ k ∈ pathKeys notices, keyComponentsFree k := by
  intro k hk
  simp only [pathKeys, List.mem_append, List.mem_map, List.mem_flatMap] at hk
  rcases hk with ((⟨n, hn, rfl⟩ | ⟨n, hn, rfl⟩) | ⟨l, hl, n, hn, rfl⟩) | ⟨n1, h1, n2, h2, rfl⟩
  · trivial
  · trivial
  · exact layers_no_slash l hl
  · exact hfree n1 h1

/-- The key list of distinct notices has no duplicates. -/
theorem pathKeys_nodup (notices : List PyStr) (hnd : notices.Nodup) :
    (pathKeys notices).Nodup := by
  have hreg : (notices.map PathKey.reg).Nodup :=
    hnd.map (fun a b hab => by injection hab)
  have hntc : (notices.map PathKey.ntc).Nodup :=
    hnd.map (fun a b hab => by injection hab)
  have hlay : (layers.flatMap (fun l => notices.map (PathKey.lay l))).Nodup := by
    refine nodup_flatMap_of _ _ layers_nodup
      (fun l _ => hnd.map (fun a b hab => by injection hab)) ?_
    intro a _ b _ hab p hpa hpb
    simp only [List.mem_map] at hpa hpb
    obtain ⟨n, _, rfl⟩ := hpa
    obtain ⟨m, _, he⟩ := hpb
    injection he with e1 _
    exact hab e1.symm
  have hdif : (notices.flatMap (fun n1 => notices.map (PathKey.dif n1))).Nodup := by
    refine nodup_flatMap_of _ _ hnd
      (fun n1 _ => hnd.map (fun a b hab => by injection hab)) ?_
    intro a _ b _ hab p hpa hpb
    simp only [List.mem_map] at hpa hpb
    obtain ⟨n, _, rfl⟩ := hpa
    obtain ⟨m, _, he⟩ := hpb
    injection he with e1 _
    exact hab e1.symm
  unfold pathKeys
  rw [List.nodup_append, List.nodup_append, List.nodup_append]
  refine ⟨⟨⟨hreg, hntc, ?_⟩, hlay, ?_⟩, hdif, ?_⟩
  · intro p hp1 hp2
    simp only [List.mem_map] at hp1 hp2
    obtain ⟨n, _, rfl⟩ := hp1
    obtain ⟨m, _, he⟩ := hp2
    exact PathKey.noConfusion he
  · intro p hp1 hp2
    simp only [List.mem_append, List.mem_map, List.mem_flatMap] at hp1 hp2
    obtain ⟨l, _, m, _, he⟩ := hp2
    rcases hp1 with ⟨n, _, rfl⟩ | ⟨n, _, rfl⟩
    · exact PathKey.noConfusion he
    · exact PathKey.noConfusion he
  · intro p hp1 hp2
    simp only [List.mem_append, List.mem_map, List.mem_flatMap] at hp1 hp2
    obtain ⟨n1, _, m, _, he⟩ := hp2
    rcases hp1 with (⟨n, _, rfl⟩ | ⟨n, _, rfl⟩) | ⟨l, _, n, _, rfl⟩
    · exact PathKey.noConfusion he
    · exact PathKey.noConfusion he
    · exact PathKey.noConfusion he

/-- Claim C1 (amended): for well-formed tokens — regulation id and notices
nonempty, neither beginning nor ending with `'/'` — the discovered paths
are exactly the claimed set: `regulation/{id}/{n}` and `notice/{n}` per
notice, one layer path per layer name and notice, and `diff/{id}/{n1}/{n2}`
for every ordered pair of notices including self-pairs, and nothing else. -/
theorem determine_paths_exact (http : Url → Response) (u : Url) (regulation : PyStr)
    (notices : List PyStr)
    (hparse : parse_versions (http (reg_request_url u regulation)).body = some notices)
    (hr : goodTok regulation) (hn : ∀ n ∈ notices, goodTok n) (p : PyStr) :
    p ∈ (determine_regulation_paths http u regulation).2.getD [] ↔
      claimed_path regulation notices p := by
  have hgd : (determine_regulation_paths http u regulation).2 =
      some (assemble_regulation_paths regulation notices) := by
    simp [determine_regulation_paths, hparse]
  rw [hgd, Option.getD_some, assemble_eq_map regulation notices hr hn]
  unfold claimed_path pathKeys
  simp only [List.mem_map, List.mem_append, List.mem_flatMap]
  constructor
  · rintro ⟨k, hk, rfl⟩
    rcases hk with ((⟨n, hn1, rfl⟩ | ⟨n, hn1, rfl⟩) | ⟨l, hl, n, hn1, rfl⟩) | ⟨n1, h1, n2, h2, rfl⟩
    · exact Or.inl ⟨n, hn1, rfl⟩
    · exact Or.inr (Or.inl ⟨n, hn1, rfl⟩)
    · exact Or.inr (Or.inr (Or.inl ⟨l, hl, n, hn1, rfl⟩))
    · exact Or.inr (Or.inr (Or.inr ⟨n1, h1, n2, h2, rfl⟩))
  · rintro (⟨n, hn1, rfl⟩ | ⟨n, hn1, rfl⟩ | ⟨l, hl, n, hn1, rfl⟩ | ⟨n1, h1, n2, h2, rfl⟩)
    · exact ⟨PathKey.reg n, Or.inl (Or.inl (Or.inl ⟨n, hn1, rfl⟩)), rfl⟩
    · exact ⟨PathKey.ntc n, Or.inl (Or.inl (Or.inr ⟨n, hn1, rfl⟩)), rfl⟩
    · exact ⟨PathKey.lay l n, Or.inl (Or.inr ⟨l, hl, n, hn1, rfl⟩), rfl⟩
    · exact ⟨PathKey.dif n1 n2, Or.inr ⟨n1, h1, n2, h2, rfl⟩, rfl⟩

/-- Witness for C1: with one notice `n1`, the path `notice/n1` is
discovered. -/
theorem determine_paths_exact_witness :
    lit "notice/n1" ∈
      (determine_regulation_paths (httpWith [lit "n1"]) u0 (lit "1026")).2.getD [] :=
  (determine_paths_exact (httpWith [lit "n1"]) u0 (lit "1026") [lit "n1"]
    (by decide) (by decide) (by decide) (lit "notice/n1")).mpr (by decide)

/-- Counterexample for C1 as stated: for the notice token `/x`,
`os.path.join` resets on the leading slash and the discovered list contains
the path `/x`, which has none of the claimed forms. -/
theorem determine_paths_exact_cex :
    lit "/x" ∈ (determine_regulation_paths (httpWith [lit "/x"]) u0 (lit "1026")).2.getD [] ∧
    ¬ claimed_path (lit "1026") [lit "/x"] (lit "/x") := by decide

/-- Claim C9 (amended): for a well-formed regulation id and pairwise
distinct, nonempty, slash-free version tokens, the discovered path list has
no duplicates. -/
theorem determine_paths_nodup (http : Url → Response) (u : Url) (regulation : PyStr)
    (notices : List PyStr)
    (hparse : parse_versions (http (reg_request_url u regulation)).body = some notices)
    (hr : goodTok regulation)
    (hfree : ∀ n ∈ notices, n ≠ [] ∧ '/' ∉ n) (hnd : notices.Nodup) :
    ((determine_regulation_paths http u regulation).2.getD []).Nodup := by
  have hgd : (determine_regulation_paths http u regulation).2 =
      some (assemble_regulation_paths regulation notices) := by
    simp [determine_regulation_paths, hparse]
  rw [hgd, Option.getD_some,
    assemble_eq_map regulation notices hr
      (fun n hm => goodTok_of_no_slash n (hfree n hm).1 (hfree n hm).2)]
  refine (pathKeys_nodup notices hnd).map_on ?_
  intro k1 hk1 k2 hk2 h
  exact keyPath_inj_cases regulation k1 k2
    (pathKeys_free notices (fun n hm => (hfree n hm).2) k1 hk1)
    (pathKeys_free notices (fun n hm => (hfree n hm).2) k2 hk2) h

/-- Witness for C9: two distinct slash-free notices give duplicate-free
paths. -/
theorem determine_paths_nodup_witness :
    ((determine_regulation_paths (httpWith [lit "a", lit "b"]) u0 (lit "1026")).2.getD
      []).Nodup :=
  determine_paths_nodup (httpWith [lit "a", lit "b"]) u0 (lit "1026")
    [lit "a", lit "b"] (by decide) (by decide) (by decide) (by decide)

/-- Counterexample for C9 as stated: the pairwise distinct version tokens
`x` and `x/x` produce the diff path `diff/1026/x/x/x` twice, once as the
pair `(x, x/x)` and once as `(x/x, x)`. -/
theorem determine_paths_nodup_cex :
    [lit "x", lit "x/x"].Nodup ∧
    ¬ ((determine_regulation_paths (httpWith [lit "x", lit "x/x"]) u0
        (lit "1026")).2.getD []).Nodup := by decide

/-- `splitChar` never returns the empty list. -/
theorem splitChar_ne_nil (c : Char) : ∀ l : List Char, splitChar c l ≠ [] := by
  intro l
  induction l with
  | nil => simp [splitChar]
  | cons x xs ih =>
    cases h : splitChar c xs with
    | nil => exact absurd h ih
    | cons s rest =>
      have : splitChar c (x :: xs) =
          if x = c then [] :: s :: rest else (x :: s) :: rest := by
        simp only [splitChar, h]
      rw [this]
      by_cases hx : x = c <;> simp [hx]

/-- `joinSegs` of a nonempty tail. -/
theorem joinSegs_cons (s : PyStr) (L : List PyStr) (h : L ≠ []) :
    joinSegs (s :: L) = s ++ '/' :: joinSegs L := by
  cases L with
  | nil => exact absurd rfl h
  | cons t ts => rfl

/-- Splitting on slashes and joining again is the identity. -/
theorem joinSegs_splitChar : ∀ p : PyStr, joinSegs (splitChar '/' p) = p := by
  intro p
  induction p with
  | nil => rfl
  | cons x xs ih =>
    cases h : splitChar '/' xs with
    | nil => exact absurd h (splitChar_ne_nil '/' xs)
    | cons s rest =>
      rw [h] at ih
      have hsp : splitChar '/' (x :: xs) =
          if x = '/' then [] :: s :: rest else (x :: s) :: rest := by
        simp only [splitChar, h]
      rw [hsp]
      by_cases hx : x = '/'
      · rw [if_pos hx, joinSegs_cons [] (s :: rest) (by simp), ih, hx]
        rfl
      · rw [if_neg hx]
        cases rest with
        | nil =>
          show x :: s = x :: xs
          simpa [joinSegs] using ih
        | cons r rs =>
          rw [joinSegs_cons (x :: s) (r :: rs) (by simp), List.cons_append,
            ← joinSegs_cons s (r :: rs) (by simp), ih]

/-- `joinSegs` distributes over append of nonempty segment lists. -/
theorem joinSegs_append (B : List PyStr) (hB : B ≠ []) :
    ∀ A : List PyStr, A ≠ [] →
      joinSegs (A ++ B) = joinSegs A ++ '/' :: joinSegs B := by
  intro A
  induction A with
  | nil => intro h; exact absurd rfl h
  | cons s t ih =>
    intro _
    cases t with
    | nil =>
      rw [List.cons_append, List.nil_append, joinSegs_cons s B hB]
      rfl
    | cons t' ts =>
      rw [List.cons_append, joinSegs_cons s ((t' :: ts) ++ B) (by simp),
        ih (by simp), joinSegs_cons s (t' :: ts) (by simp)]
      simp [List.append_assoc]

/-- The last element per `getLast?` is a member. -/
theorem getLast?_memb {α : Type} : ∀ (l : List α) (a : α), l.getLast? = some a → a ∈ l := by
  intro l
  induction l with
  | nil => intro a h; simp at h
  | cons x xs ih =>
    intro a h
    cases xs with
    | nil =>
      simp at h
      simp [h]
    | cons y ys =>
      rw [List.getLast?_cons_cons] at h
      exact List.mem_cons_of_mem x (ih a h)

/-- Members of `dropLast` are members. -/
theorem dropLast_memb {α : Type} : ∀ (l : List α) (a : α), a ∈ l.dropLast → a ∈ l := by
  intro l
  induction l with
  | nil => intro a h; simp at h
  | cons x xs ih =>
    intro a h
    cases xs with
    | nil => simp at h
    | cons y ys =>
      have he : (x :: y :: ys).dropLast = x :: (y :: ys).dropLast := rfl
      rw [he] at h
      rcases List.mem_cons.mp h with rfl | h2
      · exact List.mem_cons_self a (y :: ys)
      · exact List.mem_cons_of_mem x (ih a h2)

/-- The unfolding equation of `splitChar` on a cons cell. -/
theorem splitChar_cons (c x : Char) (xs : List Char) :
    splitChar c (x :: xs) =
      match splitChar c xs with
      | [] => [[]]
      | s :: rest => if x = c then [] :: s :: rest else (x :: s) :: rest := rfl

/-- A slash-terminated string splits into segments ending with the empty
segment. -/
theorem endswith_lastseg : ∀ p : PyStr, endswith '/' p = true →
    (splitChar '/' p).getLast? = some [] := by
  intro p
  induction p with
  | nil => intro h; simp [endswith] at h
  | cons x xs ih =>
    intro h
    cases xs with
    | nil =>
      have hx : x = '/' := by simpa [endswith] using h
      subst hx
      decide
    | cons y ys =>
      have h2 : endswith '/' (y :: ys) = true := h
      have ih2 := ih h2
      cases hs : splitChar '/' (y :: ys) with
      | nil => exact absurd hs (splitChar_ne_nil '/' (y :: ys))
      | cons s rest =>
        have hsp : splitChar '/' (x :: y :: ys) =
            if x = '/' then [] :: s :: rest else (x :: s) :: rest := by
          rw [splitChar_cons, hs]
        rw [hs] at ih2
        rw [hsp]
        by_cases hx : x = '/'
        · rw [if_pos hx, List.getLast?_cons_cons]
          exact ih2
        · rw [if_neg hx]
          cases rest with
          | nil =>
            exfalso
            have hs0 : s = [] := by simpa using ih2
            have hjs := joinSegs_splitChar (y :: ys)
            rw [hs, hs0] at hjs
            simp [joinSegs] at hjs
          | cons r rs =>
            rw [List.getLast?_cons_cons]
            rw [List.getLast?_cons_cons] at ih2
            exact ih2

/-- `dotdot_once` finds nothing in a list without `'..'` segments. -/
theorem dotdot_once_none : ∀ l : List PyStr, lit ".." ∉ l → dotdot_once l = none
  | [], _ => rfl
  | [_], _ => rfl
  | [_, _], _ => rfl
  | a :: b :: c :: rest, h => by
    have hb : b ≠ lit ".." := by
      intro e
      exact h (by simp [e])
    have hrec := dotdot_once_none (b :: c :: rest)
      (fun m => h (List.mem_cons_of_mem a m))
    simp only [dotdot_once]
    rw [if_neg (fun hand => hb hand.1), hrec]
    rfl

/-- The `'..'` loop is the identity at a fixed point. -/
theorem dotdot_loop_id (fuel : Nat) (l : List PyStr) (h : dotdot_once l = none) :
    dotdot_loop fuel l = l := by
  cases fuel with
  | zero => rfl
  | succ n => simp [dotdot_loop, h]

/-- Dot-segment resolution is the identity on dot-free segment lists. -/
theorem resolveDots_id (segs : List PyStr) (h1 : lit "." ∉ segs)
    (h2 : lit ".." ∉ segs) : resolveDots segs = segs := by
  have hlast : dotLast segs = segs := by
    unfold dotLast
    rw [if_neg (fun e => h1 (getLast?_memb _ _ e))]
  have hfilter : dotFilter segs = segs := by
    unfold dotFilter
    apply List.filter_eq_self.mpr
    intro a ha
    simp
    intro e
    exact h1 (e ▸ ha)
  have hloop : dotdot_loop segs.length segs = segs :=
    dotdot_loop_id _ _ (dotdot_once_none segs h2)
  have hfix : finalFix segs = segs := by
    unfold finalFix
    rw [if_neg (fun e => h2 (by rw [e]; simp)),
      if_neg (fun hand => h2 (getLast?_memb _ _ hand.2))]
  show finalFix (dotdot_loop (dotFilter (dotLast segs)).length (dotFilter (dotLast segs))) = segs
  rw [hlast, hfilter, hloop, hfix]

/-- For a slash-terminated dot-free base path and a dot-free relative
reference, the merged path is plain concatenation. -/
theorem merge_append (bpath rel : PyStr) (hb : endswith '/' bpath = true)
    (hbd : noDots bpath) (hrd : noDots rel) :
    merge_path bpath rel = bpath ++ rel := by
  unfold merge_path
  have hdots1 : lit "." ∉ (splitChar '/' bpath).dropLast ++ splitChar '/' rel := by
    intro m
    rcases List.mem_append.mp m with m1 | m2
    · exact hbd.1 (dropLast_memb _ _ m1)
    · exact hrd.1 m2
  have hdots2 : lit ".." ∉ (splitChar '/' bpath).dropLast ++ splitChar '/' rel := by
    intro m
    rcases List.mem_append.mp m with m1 | m2
    · exact hbd.2 (dropLast_memb _ _ m1)
    · exact hrd.2 m2
  rw [resolveDots_id _ hdots1 hdots2]
  have hlastS : (splitChar '/' bpath).getLast? = some [] := endswith_lastseg bpath hb
  have hSne : splitChar '/' bpath ≠ [] := splitChar_ne_nil '/' bpath
  have hRne : splitChar '/' rel ≠ [] := splitChar_ne_nil '/' rel
  by_cases hD : (splitChar '/' bpath).dropLast = []
  · exfalso
    have hone : splitChar '/' bpath = [[]] := by
      cases hsp : splitChar '/' bpath with
      | nil => exact absurd hsp hSne
      | cons s rest =>
        cases rest with
        | nil =>
          have hs0 : s = [] := by
            rw [hsp] at hlastS
            simpa using hlastS
          rw [hs0]
        | cons r rs =>
          rw [hsp] at hD
          simp at hD
    have hb2 := joinSegs_splitChar bpath
    rw [hone] at hb2
    simp [joinSegs] at hb2
    rw [hb2] at hb
    simp [endswith] at hb
  · have hDne : (splitChar '/' bpath).dropLast ≠ [] := hD
    rw [joinSegs_append (splitChar '/' rel) hRne _ hDne, joinSegs_splitChar rel]
    have hS2 : (splitChar '/' bpath).dropLast ++ [[]] = splitChar '/' bpath := by
      have h3 := List.dropLast_append_getLast hSne
      have h4 : (splitChar '/' bpath).getLast hSne = [] := by
        have h5 := List.getLast?_eq_getLast (splitChar '/' bpath) hSne
        rw [h5] at hlastS
        injection hlastS
      rw [h4] at h3
      exact h3
    have hb3 : bpath = joinSegs (splitChar '/' bpath).dropLast ++ ['/'] := by
      conv_lhs => rw [← joinSegs_splitChar bpath, ← hS2]
      rw [joinSegs_append [[]] (by simp) _ hDne]
      rfl
    conv_rhs => rw [hb3]
    simp [List.append_assoc]

/-- Rendering is compatible with extending a nonempty path. -/
theorem render_path_append (base : Url) (q : PyStr) (hbne : base.path ≠ []) :
    render ⟨base.scheme, base.netloc, base.path ++ q⟩ = render base ++ q := by
  unfold render
  simp only []
  by_cases hsp : startswith '/' base.path = true
  · rw [if_pos (Or.inr (by rw [startswith_append '/' base.path q hbne]; exact hsp)),
      if_pos (Or.inr hsp)]
    simp [List.append_assoc]
  · rw [if_neg, if_neg]
    · simp [List.append_assoc]
    · rintro (e | e)
      · exact hbne e
      · exact hsp e
    · rintro (e | e)
      · exact hbne (List.append_eq_nil.mp e).1
      · exact hsp (by rw [← startswith_append '/' base.path q hbne]; exact e)

/-- Claim C3 (amended): the discovery request goes to
`urljoin(api_base, 'regulation/' + id)` and each fetch to
`urljoin(api_base, path)`; when the base URL's path component ends with a
slash (and the relative path is nonempty with no leading slash and no dot
segments), these URLs are exactly the base URL with the path appended.
Without a trailing slash `urljoin` instead replaces the base's last path
segment (see the counterexample). -/
theorem request_urls_append (base : Url) (p reg : PyStr)
    (hb : endswith '/' base.path = true) (hbd : noDots base.path)
    (hp : startswith '/' p = false) (hp0 : p ≠ []) (hpd : noDots p)
    (hrd : noDots (lit "regulation/" ++ reg)) :
    render (get_url base p) = render base ++ p ∧
    render (reg_request_url base reg) = render base ++ lit "regulation/" ++ reg := by
  have hbne : base.path ≠ [] := by
    intro e
    rw [e] at hb
    simp [endswith] at hb
  have main : ∀ q : PyStr, startswith '/' q = false → q ≠ [] → noDots q →
      render (get_url base q) = render base ++ q := by
    intro q hq hq0 hqd
    have hgu : get_url base q = ⟨base.scheme, base.netloc, base.path ++ q⟩ := by
      unfold get_url urljoin
      rw [if_neg hq0, if_neg (by simp [hq])]
      rw [merge_append base.path q hb hbd hqd]
    rw [hgu]
    exact render_path_append base q hbne
  refine ⟨main p hp hp0 hpd, ?_⟩
  have h2 := main (lit "regulation/" ++ reg)
    (by rw [startswith_append '/' (lit "regulation/") reg (by decide)]; decide)
    (by simp [lit]) hrd
  rw [← List.append_assoc] at h2
  exact h2

/-- Witness for C3: with the slash-terminated base `http://h/api/`, the
fetch URL for `notice/x` and the discovery URL for regulation `1026` are
the base string with the path appended. -/
theorem request_urls_append_witness :
    render (get_url u0 (lit "notice/x")) = render u0 ++ lit "notice/x" ∧
    render (reg_request_url u0 (lit "1026")) =
      render u0 ++ lit "regulation/" ++ lit "1026" :=
  request_urls_append u0 (lit "notice/x") (lit "1026")
    (by decide) (by decide) (by decide) (by decide) (by decide) (by decide)

/-- Counterexample for C3 as stated: for the base `http://h/api` (no
trailing slash) the discovery request goes to `http://h/regulation/1026` —
`urljoin` replaces the base's last segment — and not to
`{api_base}/regulation/{id}`, which would be `http://h/api/regulation/1026`. -/
theorem request_urls_append_cex :
    render (reg_request_url ⟨lit "http", lit "h", lit "/api"⟩ (lit "1026")) =
      lit "http://h/regulation/1026" ∧
    render (reg_request_url ⟨lit "http", lit "h", lit "/api"⟩ (lit "1026")) ≠
      render ⟨lit "http", lit "h", lit "/api"⟩ ++ '/' :: lit "regulation/1026" := by
  decide

/-- The fetch loop requests every path exactly once in order, never aborts,
and logs each failing fetch, provided every 200 response carries JSON. -/
theorem fetch_all_ok (http : Url → Response) (u : Url) (stub : PyStr) :
    ∀ (ps : List PyStr) (fs : FS),
      (∀ p ∈ ps, (http (get_url u p)).status = 200 →
        (http (get_url u p)).body.isSome = true) →
      (fetch_all http u stub ps fs).ok = true ∧
      (fetch_all http u stub ps fs).fetched = ps ∧
      (∀ p ∈ ps, (http (get_url u p)).status ≠ 200 →
        handle_error (http (get_url u p)) ∈ (fetch_all http u stub ps fs).log) := by
  intro ps
  induction ps with
  | nil =>
    intro fs _
    refine ⟨rfl, rfl, ?_⟩
    intro p hp
    simp at hp
  | cons p ps ih =>
    intro fs hjson
    by_cases hs : (http (get_url u p)).status = 200
    · have hbody := hjson p (List.mem_cons_self p ps) hs
      cases hbj : (http (get_url u p)).body with
      | none =>
        rw [hbj] at hbody
        simp at hbody
      | some j =>
        have hred : get_from_server http u stub p fs =
            some (writeFile (ensure_dir fs (dirname (pjoin stub p))) (pjoin stub p)
                (json_dump j),
              [lit "getting " ++ pjoin stub p]) := by
          simp [get_from_server, hs, hbj]
        obtain ⟨ih1, ih2, ih3⟩ :=
          ih (writeFile (ensure_dir fs (dirname (pjoin stub p))) (pjoin stub p)
            (json_dump j)) (fun a ha => hjson a (List.mem_cons_of_mem p ha))
        refine ⟨?_, ?_, ?_⟩
        · simp only [fetch_all, hred]
          exact ih1
        · simp only [fetch_all, hred]
          rw [ih2]
        · intro a ha hne
          rcases List.mem_cons.mp ha with rfl | ha2
          · exact absurd hs hne
          · simp only [fetch_all, hred]
            exact List.mem_append_right _ (ih3 a ha2 hne)
    · have hred : get_from_server http u stub p fs =
          some (fs, [handle_error (http (get_url u p))]) := by
        simp [get_from_server, hs]
      obtain ⟨ih1, ih2, ih3⟩ := ih fs (fun a ha => hjson a (List.mem_cons_of_mem p ha))
      refine ⟨?_, ?_, ?_⟩
      · simp only [fetch_all, hred]
        exact ih1
      · simp only [fetch_all, hred]
        rw [ih2]
      · intro a ha hne
        rcases List.mem_cons.mp ha with rfl | ha2
        · simp only [fetch_all, hred]
          exact List.mem_append_left _ (by simp)
        · simp only [fetch_all, hred]
          exact List.mem_append_right _ (ih3 a ha2 hne)

/-- Claim C6: with `-a` and `-r` given and a readable discovery response,
the run fetches every discovered path exactly once in order — a failing
fetch is logged and does not abort, nothing is retried — and the process
exits 0 regardless of how many fetches fail. -/
theorem run_continues_on_failure (http : Url → Response) (u : Url) (stub reg : PyStr)
    (ps0 : List PyStr) (fs : FS) (notices : List PyStr)
    (hparse : parse_versions (http (reg_request_url u reg)).body = some notices)
    (hjson : ∀ p ∈ assemble_regulation_paths reg notices,
      (http (get_url u p)).status = 200 → (http (get_url u p)).body.isSome = true) :
    (runMain http ⟨some u, stub, some reg, ps0⟩ fs).outcome = Outcome.exit 0 ∧
    (runMain http ⟨some u, stub, some reg, ps0⟩ fs).fetched =
      assemble_regulation_paths reg notices ∧
    (∀ p ∈ assemble_regulation_paths reg notices, (http (get_url u p)).status ≠ 200 →
      handle_error (http (get_url u p)) ∈
        (runMain http ⟨some u, stub, some reg, ps0⟩ fs).log) := by
  obtain ⟨h1, h2, h3⟩ :=
    fetch_all_ok http u stub (assemble_regulation_paths reg notices) fs hjson
  have hd : determine_regulation_paths http u reg =
      ((if (http (reg_request_url u reg)).status = 200 then []
        else [handle_error (http (reg_request_url u reg))]),
        some (assemble_regulation_paths reg notices)) := by
    simp [determine_regulation_paths, hparse]
  refine ⟨?_, ?_, ?_⟩
  · simp only [runMain, hd]
    simp [h1]
  · simp only [runMain, hd]
    exact h2
  · intro p hp hne
    simp only [runMain, hd]
    exact List.mem_append_right _ (h3 p hp hne)

/-- Witness for C6: against a server that answers discovery for regulation
`7` but 404s every fetch, the run still fetches all fourteen paths and
exits 0. -/
theorem run_continues_on_failure_witness :
    (runMain httpMix ⟨some u0, lit "/stub", some (lit "7"), []⟩ fs0).outcome =
        Outcome.exit 0 ∧
    (runMain httpMix ⟨some u0, lit "/stub", some (lit "7"), []⟩ fs0).fetched =
      assemble_regulation_paths (lit "7") [lit "v1"] ∧
    (∀ p ∈ assemble_regulation_paths (lit "7") [lit "v1"],
      (httpMix (get_url u0 p)).status ≠ 200 →
      handle_error (httpMix (get_url u0 p)) ∈
        (runMain httpMix ⟨some u0, lit "/stub", some (lit "7"), []⟩ fs0).log) :=
  run_continues_on_failure httpMix u0 (lit "/stub") (lit "7") [] fs0 [lit "v1"]
    (by decide) (by decide)
